import Mathlib

/-- `RetryStrategy` enum of `retry_handler.py`. -/
inductive RetryStrategy where
  | constant
  | linear
  | exponential
  | fibonacci
deriving DecidableEq, Repr

/-- `CircuitState` enum of `retry_handler.py` (also used for the string
states `'closed' | 'open' | 'half-open'` of
`FailoverStrategy.CircuitBreakerState`). -/
inductive CircuitState where
  | closed
  | opened
  | halfOpen
deriving DecidableEq, Repr

/-- Constructor arguments of `RetryHandler.__init__` that the modelled
methods read.  `max_retries` and `circuit_failure_threshold` are Python
ints (may be negative), delays and timeouts are floats. -/
structure RHConfig where
  maxRetries : Int
  baseDelay : ℚ
  maxDelay : ℚ
  backoffStrategy : RetryStrategy
  jitter : ℚ
  circuitFailureThreshold : Int
  circuitResetTimeout : ℚ
deriving DecidableEq, Repr

/-- The mutable circuit fields of a `RetryHandler` instance:
`_failure_count`, `_circuit_state`, `_last_failure_time`. -/
structure RHState where
  failureCount : Nat
  circuitState : CircuitState
  lastFailureTime : Option ℚ
deriving DecidableEq, Repr

/-- Fields set by `RetryHandler.__init__`: count 0, CLOSED, no failure time. -/
def RHState.init : RHState := ⟨0, .closed, none⟩

/-- `RetryHandler._calculate_delay`.  `u` is the value drawn by
`random.uniform(-jitter_amount, jitter_amount)`; theorems constrain it to
that interval (`random.uniform(0, 0)` returns `0`). -/
def calculateDelay (cfg : RHConfig) (attempt : Nat) (u : ℚ) : ℚ :=
  let delay : ℚ :=
    match cfg.backoffStrategy with
    | .constant => cfg.baseDelay
    | .linear => cfg.baseDelay * (attempt : ℚ)
    | .exponential => cfg.baseDelay * 2 ^ (attempt - 1)
    | .fibonacci => cfg.baseDelay * (1618 / 1000 : ℚ) ^ attempt
  let delay := min delay cfg.maxDelay
  let delay := delay + u
  max 0 delay

/-- Outcome of one invocation of the wrapped function inside
`RetryHandler.retry`: normal return, an exception matching `self._retry_on`
(caught by the `except` clause), or any other exception (not caught). -/
inductive OpResult (α ε : Type) where
  | ok (v : α)
  | retryableErr (e : ε)
  | nonRetryableErr (e : ε)
deriving DecidableEq, Repr

/-- The `context` dict passed to `RetryHandlerError`.  The source builds
`context={'last_error': str(e)}`; there is no `'attempts'` key, the field
is kept so the spec's claim about it can be stated. -/
structure ErrContext (ε : Type) where
  lastError : Option ε
  attempts : Option Nat
deriving DecidableEq, Repr

/-- The three distinct `RetryHandlerError` values `retry` can raise,
distinguished in the source by message and severity:
`"Circuit is open. Requests are currently blocked."` (WARNING),
`"Circuit breaker opened after {n} consecutive failures"` (CRITICAL),
`"Failed after {max_retries} attempts"` (ERROR). -/
inductive HandlerError (ε : Type) where
  | circuitOpenBlocked
  | circuitTripped (msgFailures : Nat) (ctx : ErrContext ε)
  | exhausted (msgMaxRetries : Int) (ctx : ErrContext ε)
deriving DecidableEq, Repr

/-- What a call to `RetryHandler.retry` does for the caller: return a value
(`result none` is the implicit `None` when the `for` loop body never runs),
raise a `RetryHandlerError`, or let a non-`retry_on` exception propagate. -/
inductive RetryOutcome (α ε : Type) where
  | result (v : Option α)
  | handlerErr (e : HandlerError ε)
  | propagated (e : ε)
deriving DecidableEq, Repr

/-- Observable effect of one `retry` call: the caller-visible outcome, the
handler state afterwards, how many times the wrapped function was invoked,
and the backoff delays passed to `asyncio.sleep`, in order. -/
structure CallResult (α ε : Type) where
  outcome : RetryOutcome α ε
  state : RHState
  calls : Nat
  delays : List ℚ
deriving DecidableEq, Repr

/-- The `for attempt in range(1, self._max_retries + 1)` loop of
`RetryHandler.retry`.  `op n` is what the wrapped function does on the
call made at loop counter `n`; `jit n` the jitter drawn for the delay after
attempt `n`; `tTrip` the `time.time()` sample taken if the circuit trips.
`remaining` counts loop iterations left (`max_retries.toNat` at entry). -/
def runLoop (cfg : RHConfig) (op : Nat → OpResult α ε) (jit : Nat → ℚ)
    (tTrip : ℚ) (lft : Option ℚ) (circuit : CircuitState) :
    Nat → Nat → Nat → CallResult α ε
  | fc, _, 0 => ⟨.result none, ⟨fc, circuit, lft⟩, 0, []⟩
  | fc, attempt, remaining + 1 =>
    match op attempt with
    | .ok v =>
      ⟨.result (some v),
       ⟨0, if circuit = .halfOpen then .closed else circuit, lft⟩, 1, []⟩
    | .nonRetryableErr e =>
      ⟨.propagated e, ⟨fc, circuit, lft⟩, 1, []⟩
    | .retryableErr e =>
      if ((fc + 1 : Nat) : Int) ≥ cfg.circuitFailureThreshold then
        ⟨.handlerErr (.circuitTripped (fc + 1) ⟨some e, none⟩),
         ⟨fc + 1, .opened, some tTrip⟩, 1, []⟩
      else if (attempt : Int) = cfg.maxRetries then
        ⟨.handlerErr (.exhausted cfg.maxRetries ⟨some e, none⟩),
         ⟨fc + 1, circuit, lft⟩, 1, []⟩
      else
        let d := calculateDelay cfg attempt (jit attempt)
        let r := runLoop cfg op jit tTrip lft circuit (fc + 1) (attempt + 1) remaining
        ⟨r.outcome, r.state, r.calls + 1, d :: r.delays⟩

/-- `RetryHandler.retry`, one call.  `tEntry` is the `time.time()` sample of
the circuit check at entry; `tTrip` the one taken if the circuit trips.
While OPEN the source reads `self._last_failure_time` directly (it is
always set while OPEN, see the invariant theorems); `getD 0` stands for
that read. -/
def retry (cfg : RHConfig) (op : Nat → OpResult α ε) (jit : Nat → ℚ)
    (tEntry tTrip : ℚ) (st : RHState) : CallResult α ε :=
  match st.circuitState with
  | .opened =>
    if tEntry - (st.lastFailureTime.getD 0) ≥ cfg.circuitResetTimeout then
      runLoop cfg op jit tTrip st.lastFailureTime .halfOpen st.failureCount 1
        cfg.maxRetries.toNat
    else
      ⟨.handlerErr .circuitOpenBlocked, st, 0, []⟩
  | c =>
    runLoop cfg op jit tTrip st.lastFailureTime c st.failureCount 1
      cfg.maxRetries.toNat

/-- The oracles of one `retry` call: the wrapped function's behaviour per
attempt, the jitter draws, and the two clock samples. -/
structure RHCallSpec (α ε : Type) where
  op : Nat → OpResult α ε
  jit : Nat → ℚ
  tEntry : ℚ
  tTrip : ℚ

/-- A sequence of `retry` calls on one `RetryHandler` instance: final state,
total number of invocations of the wrapped functions, outcomes in order. -/
def rhRun (cfg : RHConfig) :
    RHState → List (RHCallSpec α ε) → RHState × Nat × List (RetryOutcome α ε)
  | st, [] => (st, 0, [])
  | st, c :: cs =>
    let r := retry cfg c.op c.jit c.tEntry c.tTrip st
    let rest := rhRun cfg r.state cs
    (rest.1, r.calls + rest.2.1, r.outcome :: rest.2.2)

/-- Constructor arguments of `FailoverStrategy.__init__`.  `max_failures` is
a Python int, `reset_timeout` a float, `backoff_strategy` a string. -/
structure FSConfig where
  maxFailures : Int
  resetTimeout : ℚ
  backoffStrategy : String
deriving DecidableEq, Repr

/-- `FailoverStrategy._calculate_backoff`.  `u` is the value drawn by
`random.uniform(0, 0.1 * base_delay)` in the exponential branch (unused by
the other branches).  This method has no callers anywhere in the
repository: the decorator never retries and never sleeps. -/
def calculateBackoff (cfg : FSConfig) (attempt : Nat) (u : ℚ) : ℚ :=
  if cfg.backoffStrategy = "exponential" then
    min cfg.resetTimeout (2 ^ attempt) + u
  else if cfg.backoffStrategy = "linear" then
    min cfg.resetTimeout ((attempt : ℚ) * 5)
  else
    cfg.resetTimeout

/-- The mutable dicts of a `FailoverStrategy` instance:
`self.failures`, `self.last_failure_time`, `self.circuit_state`,
`self.fallback_handlers` (for the last only membership matters to control
flow; the behaviour of the registered handler on a given call is supplied
by that call's oracle).  `circuit_state` tracks key presence (`none` =
key absent); `failures` is read with direct indexing only for keys that
`circuit_state` holds, where it is always set, so a total map with default
0 is faithful on reachable states. -/
structure FSState where
  failures : String → Nat
  lastFailureTime : String → Option ℚ
  circuitState : String → Option CircuitState
  fallbackRegistered : String → Bool

/-- State after `FailoverStrategy.__init__`: all dicts empty. -/
def FSState.init : FSState := ⟨fun _ => 0, fun _ => none, fun _ => none, fun _ => false⟩

/-- Behaviour of one invocation of a wrapped or fallback function under the
decorator: return, or raise (the wrapper's `except Exception` catches every
exception). -/
inductive FSOp (α ε : Type) where
  | ok (v : α)
  | raise (e : ε)
deriving DecidableEq, Repr

/-- One call to a function wrapped by `FailoverStrategy.decorator`:
the key (`func.__name__`), the `time.time()` sample taken at entry
(`current_time`), what the primary would do if invoked, and what the
registered fallback would do if invoked on this call. -/
structure FSCall (α ε : Type) where
  key : String
  now : ℚ
  primary : FSOp α ε
  fallback : FSOp α ε
deriving DecidableEq, Repr

/-- Caller-visible outcome of one wrapped call: a returned value, the
`RuntimeError(f"Circuit breaker open for {key}")`, or a raised exception
(the primary's or, on the open-circuit path, the fallback's). -/
inductive FSOutcome (α ε : Type) where
  | ok (v : α)
  | circuitOpenError (key : String)
  | raised (e : ε)
deriving DecidableEq, Repr

/-- Observable effect of one wrapped call: outcome, state afterwards, and
how many times the primary function was invoked (0 or 1). -/
structure FSCallResult (α ε : Type) where
  outcome : FSOutcome α ε
  state : FSState
  primaryCalls : Nat

/-- The `try`/`except` body of the wrapper: invoke the primary once and
handle success or failure (failure tracking, threshold check, fallback
attempt, re-raise of the original exception). -/
def fsAttempt (cfg : FSConfig) (st : FSState) (c : FSCall α ε) : FSCallResult α ε :=
  match c.primary with
  | .ok v =>
    let cs :=
      if st.circuitState c.key = some .halfOpen then
        Function.update st.circuitState c.key (some .closed)
      else st.circuitState
    ⟨.ok v, { st with circuitState := cs,
                      failures := Function.update st.failures c.key 0 }, 1⟩
  | .raise e =>
    let f' := st.failures c.key + 1
    let st1 : FSState :=
      { st with failures := Function.update st.failures c.key f',
                lastFailureTime := Function.update st.lastFailureTime c.key (some c.now) }
    let st2 : FSState :=
      if (f' : Int) ≥ cfg.maxFailures then
        { st1 with circuitState := Function.update st1.circuitState c.key (some .opened) }
      else st1
    if st2.fallbackRegistered c.key then
      match c.fallback with
      | .ok v => ⟨.ok v, st2, 1⟩
      | .raise _fe => ⟨.raised e, st2, 1⟩
    else ⟨.raised e, st2, 1⟩

/-- Lines 87-89 of the wrapper: `if key not in self.circuit_state:`
initialise the key's circuit to CLOSED with zero failures. -/
def fsInitKey (st : FSState) (key : String) : FSState :=
  if (st.circuitState key).isNone then
    { st with circuitState := Function.update st.circuitState key (some .closed),
              failures := Function.update st.failures key 0 }
  else st

/-- The wrapper produced by `FailoverStrategy.decorator`, one call:
lazy state initialisation, circuit check (fallback or `RuntimeError` while
OPEN and inside the timeout, OPEN → HALF_OPEN once the timeout elapsed),
then the guarded invocation of the primary. -/
def fsCall (cfg : FSConfig) (st₀ : FSState) (c : FSCall α ε) : FSCallResult α ε :=
  let st := fsInitKey st₀ c.key
  if st.circuitState c.key = some .opened then
    if c.now - ((st.lastFailureTime c.key).getD 0) < cfg.resetTimeout then
      if st.fallbackRegistered c.key then
        match c.fallback with
        | .ok v => ⟨.ok v, st, 0⟩
        | .raise e => ⟨.raised e, st, 0⟩
      else ⟨.circuitOpenError c.key, st, 0⟩
    else
      fsAttempt cfg
        { st with circuitState := Function.update st.circuitState c.key (some .halfOpen) } c
  else fsAttempt cfg st c

/-- External events on a `FailoverStrategy` instance: a wrapped call,
`register_fallback(key, handler)`, `reset_circuit(key)`,
`reset_circuit()`. -/
inductive FSEvent (α ε : Type) where
  | call (c : FSCall α ε)
  | register (key : String)
  | reset (key : Option String)

/-- State transition for one event.  `reset_circuit(key)` forces CLOSED and
zero failures (leaving `last_failure_time` alone); `reset_circuit()` clears
the three tracking dicts (not the fallback registry). -/
def fsStep (cfg : FSConfig) (st : FSState) : FSEvent α ε → FSState
  | .call c => (fsCall cfg st c).state
  | .register k => { st with fallbackRegistered := Function.update st.fallbackRegistered k true }
  | .reset (some k) =>
    { st with circuitState := Function.update st.circuitState k (some .closed),
              failures := Function.update st.failures k 0 }
  | .reset none =>
    { st with circuitState := fun _ => none,
              failures := fun _ => 0,
              lastFailureTime := fun _ => none }

/-- Run a sequence of events from a state. -/
def fsRunEvents (cfg : FSConfig) (st : FSState) : List (FSEvent α ε) → FSState
  | [] => st
  | e :: es => fsRunEvents cfg (fsStep cfg st e) es

/-- Run a sequence of wrapped calls: final state, total number of primary
invocations, outcomes in order. -/
def fsRunCalls (cfg : FSConfig) :
    FSState → List (FSCall α ε) → FSState × Nat × List (FSOutcome α ε)
  | st, [] => (st, 0, [])
  | st, c :: cs =>
    let r := fsCall cfg st c
    let rest := fsRunCalls cfg r.state cs
    (rest.1, r.primaryCalls + rest.2.1, r.outcome :: rest.2.2)

-- C10

/-- The state built by the `except` branch of the wrapper for key `key` at
time `now`: failure count bumped, failure time recorded, circuit opened when
the threshold is reached. -/
def fsFailState (cfg : FSConfig) (st : FSState) (key : String) (now : ℚ) : FSState :=
  let st1 : FSState :=
    { st with failures := Function.update st.failures key (st.failures key + 1),
              lastFailureTime := Function.update st.lastFailureTime key (some now) }
  if ((st.failures key + 1 : Nat) : Int) ≥ cfg.maxFailures then
    { st1 with circuitState := Function.update st1.circuitState key (some .opened) }
  else st1

/-- The backoff delay as the spec words it (§4.1 of the spec): the four
strategy formulas with the clamp `min(delay, max_delay)`.  Written from the
spec, to be compared with the source-derived `calculateDelay`. -/
def specClampedDelay (strategy : RetryStrategy) (baseDelay maxDelay : ℚ) (attempt : Nat) : ℚ :=
  min
    (match strategy with
      | .constant => baseDelay
      | .linear => baseDelay * (attempt : ℚ)
      | .exponential => baseDelay * 2 ^ (attempt - 1)
      | .fibonacci => baseDelay * (1618 / 1000 : ℚ) ^ attempt)
    maxDelay

/-- The invariant of claim C9 for a `RetryHandler` instance. -/
def rhInvariant (cfg : RHConfig) (st : RHState) : Prop :=
  st.circuitState = .opened →
    st.lastFailureTime.isSome ∧ (st.failureCount : Int) ≥ cfg.circuitFailureThreshold

/-- The invariant of claim C9 for a `FailoverStrategy` instance, per key. -/
def fsInvariant (cfg : FSConfig) (st : FSState) : Prop :=
  ∀ key, st.circuitState key = some CircuitState.opened →
    (st.lastFailureTime key).isSome ∧ (st.failures key : Int) ≥ cfg.maxFailures

def fsOpenTestState : FSState :=
  { FSState.init with
      circuitState := Function.update FSState.init.circuitState "f" (some .opened),
      failures := Function.update FSState.init.failures "f" 3,
      lastFailureTime := Function.update FSState.init.lastFailureTime "f" (some 0) }

theorem retry_open_blocked (cfg : RHConfig) (op : Nat → OpResult α ε) (jit : Nat → ℚ)
    (tEntry tTrip : ℚ) (st : RHState)
    (hst : st.circuitState = .opened)
    (ht : tEntry - (st.lastFailureTime.getD 0) < cfg.circuitResetTimeout) :
    retry cfg op jit tEntry tTrip st = ⟨.handlerErr .circuitOpenBlocked, st, 0, []⟩ := by
  obtain ⟨fc, cs, lft⟩ := st
  subst hst
  simp only [retry]
  rw [if_neg (not_le.mpr ht)]

-- single blocked call, FailoverStrategy

theorem fsCall_open_blocked (cfg : FSConfig) (st : FSState) (c : FSCall α ε)
    (hst : st.circuitState c.key = some .opened)
    (ht : c.now - ((st.lastFailureTime c.key).getD 0) < cfg.resetTimeout) :
    fsCall cfg st c =
      ⟨if st.fallbackRegistered c.key then
          (match c.fallback with | .ok v => .ok v | .raise e => .raised e)
        else .circuitOpenError c.key, st, 0⟩ := by
  cases hfb : st.fallbackRegistered c.key <;>
    cases hf : c.fallback <;>
      simp [fsCall, fsInitKey, hst, ht, hfb, hf]

theorem fsRunCalls_open_blocked (cfg : FSConfig) (st : FSState) (key : String)
    (calls : List (FSCall α ε))
    (hst : st.circuitState key = some .opened)
    (hcalls : ∀ c ∈ calls, c.key = key ∧
      c.now - ((st.lastFailureTime key).getD 0) < cfg.resetTimeout) :
    (fsRunCalls cfg st calls).1 = st ∧ (fsRunCalls cfg st calls).2.1 = 0 ∧
      (fsRunCalls cfg st calls).2.2 = calls.map (fun c =>
        if st.fallbackRegistered key then
          (match c.fallback with | .ok v => .ok v | .raise e => .raised e)
        else .circuitOpenError key) := by
  induction calls with
  | nil => exact ⟨rfl, rfl, rfl⟩
  | cons c cs ih =>
    obtain ⟨hkey, ht⟩ := hcalls c (List.mem_cons_self c cs)
    have hb := fsCall_open_blocked cfg st c (by rw [hkey]; exact hst) (by rw [hkey]; exact ht)
    have ihx := ih (fun d hd => hcalls d (List.mem_cons_of_mem c hd))
    simp only [fsRunCalls, hb, List.map_cons]
    exact ⟨ihx.1, by simp [ihx.2.1], by simp [ihx.2.2, hkey]⟩

theorem fsAttempt_raise (cfg : FSConfig) (st : FSState) (c : FSCall α ε) (e : ε)
    (hp : c.primary = .raise e) :
    fsAttempt cfg st c =
      ⟨if st.fallbackRegistered c.key then
          (match c.fallback with | .ok v => .ok v | .raise _ => .raised e)
        else .raised e,
       fsFailState cfg st c.key c.now, 1⟩ := by
  cases hfb : c.fallback <;> cases hreg : st.fallbackRegistered c.key <;>
    simp [fsAttempt, hp, hfb, hreg, fsFailState,
      apply_ite (fun s : FSState => s.fallbackRegistered c.key)]

theorem retry_open_elapsed (cfg : RHConfig) (op : Nat → OpResult α ε) (jit : Nat → ℚ)
    (tEntry tTrip : ℚ) (st : RHState)
    (hst : st.circuitState = .opened)
    (ht : tEntry - (st.lastFailureTime.getD 0) ≥ cfg.circuitResetTimeout) :
    retry cfg op jit tEntry tTrip st =
      runLoop cfg op jit tTrip st.lastFailureTime .halfOpen st.failureCount 1
        cfg.maxRetries.toNat := by
  obtain ⟨fc, cs, lft⟩ := st
  simp only [RHState.circuitState] at hst
  subst hst
  simp [retry, if_pos ht]

theorem specClampedDelay_nonneg (strategy : RetryStrategy) (baseDelay maxDelay : ℚ)
    (attempt : Nat) (hb : 0 ≤ baseDelay) (hm : 0 ≤ maxDelay) :
    0 ≤ specClampedDelay strategy baseDelay maxDelay attempt := by
  unfold specClampedDelay
  cases strategy <;>
    refine le_min (by positivity) hm

theorem runLoop_calls_pos (cfg : RHConfig) (op : Nat → OpResult α ε) (jit : Nat → ℚ)
    (tTrip : ℚ) (lft : Option ℚ) (circuit : CircuitState) (fc attempt rem : Nat) :
    1 ≤ (runLoop cfg op jit tTrip lft circuit fc attempt (rem + 1)).calls := by
  simp only [runLoop]
  split
  · simp
  · simp
  · split
    · simp
    · split
      · simp
      · simp

theorem runLoop_surface (cfg : RHConfig) (op : Nat → OpResult α ε) (jit : Nat → ℚ)
    (tTrip : ℚ) (lft : Option ℚ) (circuit : CircuitState) :
    ∀ (remaining fc attempt : Nat),
      (remaining = 0 ∨ (attempt : Int) + remaining = cfg.maxRetries + 1) →
      (∀ n ctx, (runLoop cfg op jit tTrip lft circuit fc attempt remaining).outcome
          = .handlerErr (.exhausted n ctx) →
          n = cfg.maxRetries ∧
          ((attempt + (runLoop cfg op jit tTrip lft circuit fc attempt remaining).calls
              - 1 : Nat) : Int) = cfg.maxRetries) ∧
      (∀ m ctx, (runLoop cfg op jit tTrip lft circuit fc attempt remaining).outcome
          = .handlerErr (.circuitTripped m ctx) →
          (m : Int) ≥ cfg.circuitFailureThreshold ∧
          m = fc + (runLoop cfg op jit tTrip lft circuit fc attempt remaining).calls) ∧
      ((runLoop cfg op jit tTrip lft circuit fc attempt remaining).delays =
        (List.range' attempt ((runLoop cfg op jit tTrip lft circuit fc attempt remaining).calls
            - 1)).map (fun i => calculateDelay cfg i (jit i))) := by
  intro remaining
  induction remaining with
  | zero =>
    intro fc attempt _
    refine ⟨fun n ctx h => by simp [runLoop] at h, fun m ctx h => by simp [runLoop] at h, ?_⟩
    simp [runLoop]
  | succ rem ih =>
    intro fc attempt hrel
    have hrel' : (attempt : Int) + (rem + 1) = cfg.maxRetries + 1 := by
      rcases hrel with h | h
      · exact absurd h (by omega)
      · exact_mod_cast h
    simp only [runLoop]
    split
    · exact ⟨fun n ctx h => by simp at h, fun m ctx h => by simp at h, by simp⟩
    · exact ⟨fun n ctx h => by simp at h, fun m ctx h => by simp at h, by simp⟩
    · split
      · next hthr =>
        refine ⟨fun n ctx h => by simp at h, fun m ctx h => ?_, by simp⟩
        simp only [RetryOutcome.handlerErr.injEq, HandlerError.circuitTripped.injEq] at h
        obtain ⟨hm, -⟩ := h
        subst hm
        exact ⟨hthr, by simp⟩
      · next hthr =>
        split
        · next hlast =>
          refine ⟨fun n ctx h => ?_, fun m ctx h => by simp at h, by simp⟩
          simp only [RetryOutcome.handlerErr.injEq, HandlerError.exhausted.injEq] at h
          obtain ⟨hn, -⟩ := h
          subst hn
          exact ⟨rfl, by simpa using hlast⟩
        · next hlast =>
          have hrem : rem ≠ 0 := by
            intro h0
            subst h0
            exact hlast (by omega)
          obtain ⟨rem', hrem'⟩ : ∃ r, rem = r + 1 := ⟨rem - 1, by omega⟩
          have ihx := ih (fc + 1) (attempt + 1) (Or.inr (by push_cast; omega))
          have hpos : 1 ≤ (runLoop cfg op jit tTrip lft circuit (fc + 1) (attempt + 1) rem).calls := by
            rw [hrem']
            exact runLoop_calls_pos cfg op jit tTrip lft circuit (fc + 1) (attempt + 1) rem'
          obtain ⟨ih1, ih2, ih3⟩ := ihx
          refine ⟨fun n ctx h => ?_, fun m ctx h => ?_, ?_⟩
          · simp only [CallResult.outcome] at h
            obtain ⟨hn, hlink⟩ := ih1 n ctx h
            refine ⟨hn, ?_⟩
            simp only [CallResult.calls]
            have heq2 : attempt + ((runLoop cfg op jit tTrip lft circuit (fc + 1) (attempt + 1) rem).calls + 1) - 1
                = attempt + 1 + (runLoop cfg op jit tTrip lft circuit (fc + 1) (attempt + 1) rem).calls - 1 := by
              omega
            rw [heq2]
            exact hlink
          · simp only [CallResult.outcome] at h
            obtain ⟨hge, hm⟩ := ih2 m ctx h
            exact ⟨hge, by simp only [CallResult.calls]; omega⟩
          · simp only [CallResult.delays, CallResult.calls]
            rw [ih3]
            have h1 : (runLoop cfg op jit tTrip lft circuit (fc + 1) (attempt + 1) rem).calls + 1 - 1
                = ((runLoop cfg op jit tTrip lft circuit (fc + 1) (attempt + 1) rem).calls - 1) + 1 := by
              omega
            rw [h1, List.range'_succ]
            simp

theorem runLoop_state_inv (cfg : RHConfig) (op : Nat → OpResult α ε) (jit : Nat → ℚ)
    (tTrip : ℚ) (lft : Option ℚ) (circuit : CircuitState)
    (hc : circuit ≠ CircuitState.opened) :
    ∀ (remaining fc attempt : Nat),
      rhInvariant cfg (runLoop cfg op jit tTrip lft circuit fc attempt remaining).state := by
  intro remaining
  induction remaining with
  | zero => intro fc attempt h; exact absurd h hc
  | succ rem ih =>
    intro fc attempt
    simp only [runLoop]
    split
    · intro h
      simp only [RHState.circuitState] at h
      split at h
      · exact absurd h (by simp)
      · exact absurd h hc
    · intro h
      exact absurd h hc
    · split
      · next hthr =>
        intro _
        exact ⟨by simp, hthr⟩
      · split
        · intro h
          exact absurd h hc
        · exact ih (fc + 1) (attempt + 1)

theorem retry_preserves_inv (cfg : RHConfig) (op : Nat → OpResult α ε) (jit : Nat → ℚ)
    (tEntry tTrip : ℚ) (st : RHState) (h : rhInvariant cfg st) :
    rhInvariant cfg (retry cfg op jit tEntry tTrip st).state := by
  obtain ⟨fc, cs, lft⟩ := st
  cases cs with
  | closed => exact runLoop_state_inv cfg op jit tTrip lft .closed (by simp) _ _ _
  | halfOpen => exact runLoop_state_inv cfg op jit tTrip lft .halfOpen (by simp) _ _ _
  | opened =>
    simp only [retry]
    split
    · exact runLoop_state_inv cfg op jit tTrip lft .halfOpen (by simp) _ _ _
    · exact h

theorem rhRun_inv (cfg : RHConfig) (specs : List (RHCallSpec α ε)) :
    ∀ st, rhInvariant cfg st → rhInvariant cfg (rhRun cfg st specs).1 := by
  induction specs with
  | nil => intro st h; exact h
  | cons c cs ih =>
    intro st h
    simp only [rhRun]
    exact ih _ (retry_preserves_inv cfg c.op c.jit c.tEntry c.tTrip st h)

theorem fsInitKey_inv (cfg : FSConfig) (st : FSState) (key : String)
    (h : fsInvariant cfg st) : fsInvariant cfg (fsInitKey st key) := by
  unfold fsInitKey
  split
  · intro k hk
    by_cases hkey : k = key
    · subst hkey
      simp only [FSState.circuitState, Function.update_same] at hk
      exact absurd hk (by simp)
    · simp only [FSState.circuitState, FSState.failures, FSState.lastFailureTime,
        Function.update_noteq hkey] at hk ⊢
      exact h k hk
  · exact h

theorem fsFailState_inv (cfg : FSConfig) (st : FSState) (key : String) (now : ℚ)
    (hc : st.circuitState key ≠ some CircuitState.opened)
    (h : fsInvariant cfg st) : fsInvariant cfg (fsFailState cfg st key now) := by
  unfold fsFailState
  split
  · next hthr =>
    intro k hk
    by_cases hkey : k = key
    · subst hkey
      simp only [FSState.failures, FSState.lastFailureTime, Function.update_same]
      exact ⟨by simp, hthr⟩
    · simp only [FSState.circuitState, Function.update_noteq hkey] at hk
      simp only [FSState.failures, FSState.lastFailureTime, Function.update_noteq hkey]
      exact h k hk
  · intro k hk
    by_cases hkey : k = key
    · subst hkey
      simp only [FSState.circuitState] at hk
      exact absurd hk hc
    · simp only [FSState.circuitState] at hk
      simp only [FSState.failures, FSState.lastFailureTime, Function.update_noteq hkey]
      exact h k hk

theorem fsAttempt_inv (cfg : FSConfig) (st : FSState) (c : FSCall α ε)
    (hc : st.circuitState c.key ≠ some CircuitState.opened)
    (h : fsInvariant cfg st) : fsInvariant cfg (fsAttempt cfg st c).state := by
  cases hp : c.primary with
  | ok v =>
    simp only [fsAttempt, hp]
    intro k hk
    by_cases hkey : k = c.key
    · subst hkey
      simp only [FSState.circuitState] at hk
      split at hk
      · rw [Function.update_same] at hk
        exact absurd hk (by simp)
      · exact absurd hk hc
    · simp only [FSState.circuitState] at hk
      simp only [FSState.failures, FSState.lastFailureTime, Function.update_noteq hkey]
      split at hk
      · rw [Function.update_noteq hkey] at hk
        exact h k hk
      · exact h k hk
  | raise e =>
    rw [fsAttempt_raise cfg st c e hp]
    exact fsFailState_inv cfg st c.key c.now hc h

theorem fsCall_inv (cfg : FSConfig) (st : FSState) (c : FSCall α ε)
    (h : fsInvariant cfg st) : fsInvariant cfg (fsCall cfg st c).state := by
  have h1 : fsInvariant cfg (fsInitKey st c.key) := fsInitKey_inv cfg st c.key h
  simp only [fsCall]
  split
  · split
    · split
      · split
        · exact h1
        · exact h1
      · exact h1
    · apply fsAttempt_inv
      · simp [FSState.circuitState, Function.update_same]
      · intro k hk
        by_cases hkey : k = c.key
        · subst hkey
          dsimp only at hk
          rw [Function.update_same] at hk
          exact absurd hk (by simp)
        · dsimp only at hk ⊢
          rw [Function.update_noteq hkey] at hk
          exact h1 k hk
  · next ho => exact fsAttempt_inv cfg _ c ho h1

theorem fsStep_inv (cfg : FSConfig) (e : FSEvent α ε) (st : FSState)
    (h : fsInvariant cfg st) : fsInvariant cfg (fsStep cfg st e) := by
  cases e with
  | call c => exact fsCall_inv cfg st c h
  | register k => intro key hk; exact h key hk
  | reset k =>
    cases k with
    | some k0 =>
      intro key hk
      by_cases hkey : key = k0
      · subst hkey
        simp only [fsStep, FSState.circuitState, Function.update_same] at hk
        exact absurd hk (by simp)
      · simp only [fsStep, FSState.circuitState, Function.update_noteq hkey] at hk
        simp only [fsStep, FSState.failures, FSState.lastFailureTime,
          Function.update_noteq hkey]
        exact h key hk
    | none =>
      intro key hk
      simp only [fsStep, FSState.circuitState] at hk
      exact absurd hk (by simp)

theorem fsRunEvents_inv (cfg : FSConfig) (events : List (FSEvent α ε)) :
    ∀ st, fsInvariant cfg st → fsInvariant cfg (fsRunEvents cfg st events) := by
  induction events with
  | nil => intro st h; exact h
  | cons e es ih =>
    intro st h
    simp only [fsRunEvents]
    exact ih _ (fsStep_inv cfg e st h)

/-- C1: while a key's circuit is OPEN and `now - last_failure_time < reset_timeout`, the underlying operation is never invoked: over any sequence of such wrapped calls the primary-invocation count is 0 and the state is unchanged, each call raising the circuit-open error or returning the registered fallback's result; a `RetryHandler.retry` call in the same situation raises immediately with zero invocations. -/
theorem claim_C1 (cfg : FSConfig) (st : FSState) (key : String)
    (calls : List (FSCall α ε))
    (hst : st.circuitState key = some .opened)
    (hcalls : ∀ c ∈ calls, c.key = key ∧
      c.now - ((st.lastFailureTime key).getD 0) < cfg.resetTimeout)
    (rcfg : RHConfig) (rop : Nat → OpResult α ε) (rjit : Nat → ℚ)
    (tEntry tTrip : ℚ) (rst : RHState)
    (hrst : rst.circuitState = .opened)
    (hrt : tEntry - (rst.lastFailureTime.getD 0) < rcfg.circuitResetTimeout) :
    ((fsRunCalls cfg st calls).2.1 = 0 ∧ (fsRunCalls cfg st calls).1 = st ∧
      (fsRunCalls cfg st calls).2.2 = calls.map (fun c =>
        if st.fallbackRegistered key then
          (match c.fallback with | .ok v => .ok v | .raise e => .raised e)
        else .circuitOpenError key)) ∧
    retry rcfg rop rjit tEntry tTrip rst = ⟨.handlerErr .circuitOpenBlocked, rst, 0, []⟩ := by
  obtain ⟨h1, h2, h3⟩ := fsRunCalls_open_blocked cfg st key calls hst hcalls
  exact ⟨⟨h2, h1, h3⟩, retry_open_blocked rcfg rop rjit tEntry tTrip rst hrst hrt⟩

/-- Witness for C1 at a concrete OPEN state and two blocked calls. -/
theorem claim_C1_witness :
    (fsRunCalls ⟨3, 60, "exp"⟩ fsOpenTestState
        [⟨"f", 1, FSOp.raise 9, FSOp.ok 5⟩, ⟨"f", 2, FSOp.raise 9, FSOp.ok 5⟩]).2.1 = 0 ∧
      (fsRunCalls ⟨3, 60, "exp"⟩ fsOpenTestState
        [(⟨"f", 1, FSOp.raise 9, FSOp.ok 5⟩ : FSCall Nat Nat), ⟨"f", 2, FSOp.raise 9, FSOp.ok 5⟩]).1 = fsOpenTestState ∧
      (fsRunCalls ⟨3, 60, "exp"⟩ fsOpenTestState
        [(⟨"f", 1, FSOp.raise 9, FSOp.ok 5⟩ : FSCall Nat Nat), ⟨"f", 2, FSOp.raise 9, FSOp.ok 5⟩]).2.2 =
        [FSOutcome.circuitOpenError "f", FSOutcome.circuitOpenError "f"] := by
  have h := claim_C1 ⟨3, 60, "exp"⟩ fsOpenTestState "f"
      [(⟨"f", 1, FSOp.raise 9, FSOp.ok 5⟩ : FSCall Nat Nat), ⟨"f", 2, FSOp.raise 9, FSOp.ok 5⟩]
      (by simp [fsOpenTestState, FSState.init])
      (by intro c hc; fin_cases hc <;> exact ⟨rfl, by norm_num [fsOpenTestState, FSState.init]⟩)
      ⟨3, 1, 60, .exponential, 0, 5, 30⟩ (fun _ => OpResult.retryableErr 9) (fun _ => 0)
      1 1 ⟨5, .opened, some 0⟩ rfl (by norm_num)
  exact ⟨h.1.1, h.1.2.1, by rw [h.1.2.2]; simp [fsOpenTestState, FSState.init]⟩

/-- C2: with `failure_threshold = 3` and an always-failing retryable operation, the circuit reaches OPEN after exactly 3 consecutive recorded failures — within a single 5-attempt `retry` call, across three single-attempt `retry` calls, and across three `FailoverStrategy` calls — the state is still CLOSED before the 3rd failure, and at the transition `last_failure_time` is set to the clock sample taken then. -/
theorem claim_C2 (e : ε) (jit : Nat → ℚ) (tE tT t1 t2 t3 t1' t2' t3' u1 u2 u3 : ℚ) :
    (retry ⟨5, 1, 60, .exponential, 0, 3, 30⟩
        (fun _ => OpResult.retryableErr (α := α) e) jit tE tT RHState.init
      = ⟨.handlerErr (.circuitTripped 3 ⟨some e, none⟩), ⟨3, .opened, some tT⟩, 3,
         [calculateDelay ⟨5, 1, 60, .exponential, 0, 3, 30⟩ 1 (jit 1),
          calculateDelay ⟨5, 1, 60, .exponential, 0, 3, 30⟩ 2 (jit 2)]⟩) ∧
    (let cfg1 : RHConfig := ⟨1, 1, 60, .exponential, 0, 3, 30⟩
     let op : Nat → OpResult α ε := fun _ => .retryableErr e
     let r1 := retry cfg1 op jit t1 t1' RHState.init
     let r2 := retry cfg1 op jit t2 t2' r1.state
     let r3 := retry cfg1 op jit t3 t3' r2.state
     r1.state = ⟨1, .closed, none⟩ ∧
     r1.outcome = .handlerErr (.exhausted 1 ⟨some e, none⟩) ∧
     r2.state = ⟨2, .closed, none⟩ ∧
     r3.outcome = .handlerErr (.circuitTripped 3 ⟨some e, none⟩) ∧
     r3.state = ⟨3, .opened, some t3'⟩ ∧
     r1.calls = 1 ∧ r2.calls = 1 ∧ r3.calls = 1) ∧
    (let fcfg : FSConfig := ⟨3, 60, "exponential"⟩
     let call := fun t => (⟨"f", t, FSOp.raise e, FSOp.raise e⟩ : FSCall α ε)
     let s1 := (fsCall fcfg FSState.init (call u1)).state
     let s2 := (fsCall fcfg s1 (call u2)).state
     let s3 := (fsCall fcfg s2 (call u3)).state
     s1.circuitState "f" = some .closed ∧ s1.failures "f" = 1 ∧
     s2.circuitState "f" = some .closed ∧ s2.failures "f" = 2 ∧
     s3.circuitState "f" = some .opened ∧ s3.failures "f" = 3 ∧
     s3.lastFailureTime "f" = some u3 ∧
     (fsCall fcfg s2 (call u3)).outcome = .raised e) := by
  refine ⟨rfl, ⟨rfl, rfl, rfl, rfl, rfl, rfl, rfl, rfl⟩, ⟨rfl, rfl, rfl, rfl, rfl, rfl, rfl, rfl⟩⟩

/-- C3: a `retry` call surfaces a retryable failure only by tripping the circuit (failure count at least `failure_threshold`) or by exhausting attempts (at `attempt = max_retries`, after exactly `max_retries` invocations); every earlier retryable failure is followed by the backoff delay `_calculate_delay` computes for its attempt number and is invisible in the outcome. -/
theorem claim_C3 (cfg : RHConfig) (op : Nat → OpResult α ε) (jit : Nat → ℚ)
    (tEntry tTrip : ℚ) (st : RHState) (hst : st.circuitState ≠ CircuitState.opened) :
    (∀ n ctx, (retry cfg op jit tEntry tTrip st).outcome = .handlerErr (.exhausted n ctx) →
        n = cfg.maxRetries ∧
        (((retry cfg op jit tEntry tTrip st).calls : Nat) : Int) = cfg.maxRetries) ∧
    (∀ m ctx, (retry cfg op jit tEntry tTrip st).outcome = .handlerErr (.circuitTripped m ctx) →
        (m : Int) ≥ cfg.circuitFailureThreshold ∧
        m = st.failureCount + (retry cfg op jit tEntry tTrip st).calls) ∧
    ((retry cfg op jit tEntry tTrip st).delays =
      (List.range' 1 ((retry cfg op jit tEntry tTrip st).calls - 1)).map
        (fun i => calculateDelay cfg i (jit i))) := by
  have hrw : retry cfg op jit tEntry tTrip st =
      runLoop cfg op jit tTrip st.lastFailureTime st.circuitState st.failureCount 1
        cfg.maxRetries.toNat := by
    obtain ⟨fc, cs, lft⟩ := st
    cases cs with
    | opened => exact absurd rfl hst
    | closed => rfl
    | halfOpen => rfl
  have hrel : cfg.maxRetries.toNat = 0 ∨
      ((1 : Nat) : Int) + cfg.maxRetries.toNat = cfg.maxRetries + 1 := by
    by_cases h : cfg.maxRetries ≤ 0
    · exact Or.inl (by omega)
    · exact Or.inr (by rw [Int.toNat_of_nonneg (by omega)]; push_cast; ring)
  obtain ⟨h1, h2, h3⟩ := runLoop_surface cfg op jit tTrip st.lastFailureTime st.circuitState
      cfg.maxRetries.toNat st.failureCount 1 hrel
  rw [hrw]
  refine ⟨fun n ctx h => ?_, h2, h3⟩
  obtain ⟨hn, hlink⟩ := h1 n ctx h
  refine ⟨hn, ?_⟩
  have heq1 : (1 + (runLoop cfg op jit tTrip st.lastFailureTime st.circuitState
      st.failureCount 1 cfg.maxRetries.toNat).calls - 1 : Nat)
      = (runLoop cfg op jit tTrip st.lastFailureTime st.circuitState
          st.failureCount 1 cfg.maxRetries.toNat).calls := by omega
  rw [heq1] at hlink
  exact hlink

/-- Witness for C3: the exhaustion case surfaces after exactly 3 invocations. -/
theorem claim_C3_witness :
    (((retry ⟨3, 1, 10, .exponential, 0, 5, 30⟩
        ((fun _ => OpResult.retryableErr 7) : Nat → OpResult Nat Nat)
        (fun _ => 0) 0 0 RHState.init).calls : Nat) : Int) = 3 :=
  ((claim_C3 ⟨3, 1, 10, .exponential, 0, 5, 30⟩
      ((fun _ => OpResult.retryableErr 7) : Nat → OpResult Nat Nat)
      (fun _ => 0) 0 0 RHState.init (by decide)).1 3 ⟨some 7, none⟩ rfl).2

/-- C4: once OPEN and with `reset_timeout` elapsed, the next call proceeds from HALF_OPEN (lazily, at call time) and probes the operation exactly once: a successful probe returns its result with state CLOSED and failure count 0; a failing probe returns the circuit to OPEN with no further invocation in that call — in both implementations. -/
theorem claim_C4 (cfg : RHConfig) (op : Nat → OpResult α ε) (jit : Nat → ℚ)
    (tEntry tTrip : ℚ) (st : RHState) (v : α) (e : ε)
    (hst : st.circuitState = .opened)
    (hfc : (st.failureCount : Int) ≥ cfg.circuitFailureThreshold)
    (ht : tEntry - (st.lastFailureTime.getD 0) ≥ cfg.circuitResetTimeout)
    (hmr : 1 ≤ cfg.maxRetries)
    (fcfg : FSConfig) (fst : FSState) (c : FSCall α ε)
    (hfst : fst.circuitState c.key = some .opened)
    (hffc : (fst.failures c.key : Int) ≥ fcfg.maxFailures)
    (hft : ¬ (c.now - ((fst.lastFailureTime c.key).getD 0) < fcfg.resetTimeout)) :
    (retry cfg op jit tEntry tTrip st =
      runLoop cfg op jit tTrip st.lastFailureTime .halfOpen st.failureCount 1
        cfg.maxRetries.toNat) ∧
    (op 1 = .ok v →
      retry cfg op jit tEntry tTrip st =
        ⟨.result (some v), ⟨0, .closed, st.lastFailureTime⟩, 1, []⟩) ∧
    (op 1 = .retryableErr e →
      retry cfg op jit tEntry tTrip st =
        ⟨.handlerErr (.circuitTripped (st.failureCount + 1) ⟨some e, none⟩),
         ⟨st.failureCount + 1, .opened, some tTrip⟩, 1, []⟩) ∧
    (c.primary = .ok v →
      (fsCall fcfg fst c).outcome = .ok v ∧
      (fsCall fcfg fst c).state.circuitState c.key = some .closed ∧
      (fsCall fcfg fst c).state.failures c.key = 0 ∧
      (fsCall fcfg fst c).primaryCalls = 1) ∧
    (c.primary = .raise e →
      (fsCall fcfg fst c).state.circuitState c.key = some .opened ∧
      (fsCall fcfg fst c).state.lastFailureTime c.key = some c.now ∧
      (fsCall fcfg fst c).primaryCalls = 1) := by
  have helapsed := retry_open_elapsed cfg op jit tEntry tTrip st hst ht
  obtain ⟨k, hk⟩ : ∃ k, cfg.maxRetries.toNat = k + 1 := ⟨cfg.maxRetries.toNat - 1, by omega⟩
  have hthr : ((fst.failures c.key + 1 : Nat) : Int) ≥ fcfg.maxFailures := by push_cast; omega
  refine ⟨helapsed, ?_, ?_, ?_, ?_⟩
  · intro hop
    rw [helapsed, hk]
    simp [runLoop, hop]
  · intro hop
    rw [helapsed, hk]
    simp only [runLoop, hop]
    split
    · rfl
    · exfalso; omega
  · intro hop
    have hred : fsCall fcfg fst c =
        fsAttempt fcfg
          { fst with circuitState := Function.update fst.circuitState c.key (some .halfOpen) } c := by
      simp [fsCall, fsInitKey, hfst, hft]
    rw [hred]
    simp [fsAttempt, hop, Function.update_same]
  · intro hop
    have hred : fsCall fcfg fst c =
        fsAttempt fcfg
          { fst with circuitState := Function.update fst.circuitState c.key (some .halfOpen) } c := by
      simp [fsCall, fsInitKey, hfst, hft]
    rw [hred, fsAttempt_raise fcfg _ c e hop]
    simp only [fsFailState]
    split
    · simp [Function.update_same]
    · next hneg => exact absurd hthr hneg

/-- Witness for C4: a successful probe after the timeout closes the circuit. -/
theorem claim_C4_witness :
    retry ⟨3, 1, 60, .exponential, 0, 5, 30⟩
        ((fun _ => OpResult.ok 42) : Nat → OpResult Nat Nat) (fun _ => 0) 35 99
        ⟨5, .opened, some 0⟩
      = ⟨.result (some 42), ⟨0, .closed, some 0⟩, 1, []⟩ := by
  have h := claim_C4 ⟨3, 1, 60, .exponential, 0, 5, 30⟩
      ((fun _ => OpResult.ok 42) : Nat → OpResult Nat Nat) (fun _ => 0) 35 99
      ⟨5, .opened, some 0⟩ 42 0 rfl (by norm_num) (by norm_num) (by norm_num)
      ⟨3, 60, "exp"⟩ fsOpenTestState ⟨"f", 100, FSOp.ok 1, FSOp.ok 1⟩
      (by simp [fsOpenTestState, FSState.init])
      (by simp [fsOpenTestState, FSState.init])
      (by norm_num [fsOpenTestState, FSState.init])
  exact h.2.1 rfl

/-- C5 counterexample: with a registered fallback and a CLOSED circuit, the primary raising error 1 and the fallback raising error 2 yields `raised 1`: the caller receives the primary's exception, not the fallback's, contradicting the claim that fallback errors always propagate unmodified. -/
theorem claim_C5_counterexample :
    (fsCall ⟨3, 60, "exponential"⟩
        (fsStep ⟨3, 60, "exponential"⟩ FSState.init (FSEvent.register (α := Nat) (ε := Nat) "f"))
        (⟨"f", 10, FSOp.raise 1, FSOp.raise 2⟩ : FSCall Nat Nat)).outcome = FSOutcome.raised 1 ∧
      (FSOutcome.raised 1 : FSOutcome Nat Nat) ≠ FSOutcome.raised 2 := by
  exact ⟨rfl, by decide⟩

/-- C5 (amended): a fallback error propagates to the caller unmodified on the circuit-open path only; when the fallback is invoked after a primary failure, its error is caught and logged and the primary's original exception is raised instead. -/
theorem claim_C5 (cfg : FSConfig) (st : FSState) (c : FSCall α ε) (e fe : ε)
    (hreg : st.fallbackRegistered c.key = true) (hfb : c.fallback = .raise fe) :
    (st.circuitState c.key = some .opened →
      c.now - ((st.lastFailureTime c.key).getD 0) < cfg.resetTimeout →
      (fsCall cfg st c).outcome = .raised fe) ∧
    (st.circuitState c.key = some .closed → c.primary = .raise e →
      (fsCall cfg st c).outcome = .raised e) := by
  constructor
  · intro hO ht
    rw [fsCall_open_blocked cfg st c hO ht]
    simp [hreg, hfb]
  · intro hC hp
    simp [fsCall, fsInitKey, hC, fsAttempt, hp, hreg, hfb]

/-- Witness for C5 (amended) on the circuit-open path. -/
theorem claim_C5_witness :
    ((fsCall ⟨3, 60, "x"⟩
        { FSState.init with
            fallbackRegistered := Function.update FSState.init.fallbackRegistered "f" true,
            circuitState := Function.update FSState.init.circuitState "f" (some .opened),
            lastFailureTime := Function.update FSState.init.lastFailureTime "f" (some 0) }
        (⟨"f", 1, FSOp.raise 8, FSOp.raise 9⟩ : FSCall Nat Nat)).outcome = .raised 9) := by
  have h := claim_C5 ⟨3, 60, "x"⟩
      { FSState.init with
          fallbackRegistered := Function.update FSState.init.fallbackRegistered "f" true,
          circuitState := Function.update FSState.init.circuitState "f" (some .opened),
          lastFailureTime := Function.update FSState.init.lastFailureTime "f" (some 0) }
      (⟨"f", 1, FSOp.raise 8, FSOp.raise 9⟩ : FSCall Nat Nat) 8 9
      (by simp [FSState.init]) rfl
  exact h.1 (by simp [FSState.init]) (by simp [FSState.init])

/-- C6: `_calculate_delay` equals the spec formula: the per-strategy delay (CONSTANT, LINEAR, EXPONENTIAL, FIBONACCI with factor 1.618) clamped by `min` with `max_delay`, plus the jitter draw, floored at 0; with `jitter_fraction = 0` the only admissible draw is 0 and the result is exactly the clamped formula. -/
theorem claim_C6 (cfg : RHConfig) (attempt : Nat) (u : ℚ)
    (hb : 0 ≤ cfg.baseDelay) (hm : 0 ≤ cfg.maxDelay) :
    (calculateDelay cfg attempt u =
      max 0 (specClampedDelay cfg.backoffStrategy cfg.baseDelay cfg.maxDelay attempt + u)) ∧
    (cfg.jitter = 0 →
      |u| ≤ cfg.jitter * specClampedDelay cfg.backoffStrategy cfg.baseDelay cfg.maxDelay attempt →
      calculateDelay cfg attempt u =
        specClampedDelay cfg.backoffStrategy cfg.baseDelay cfg.maxDelay attempt) := by
  obtain ⟨mr, bd, md, s, j, th, rt⟩ := cfg
  have heq : calculateDelay ⟨mr, bd, md, s, j, th, rt⟩ attempt u =
      max 0 (specClampedDelay s bd md attempt + u) := by
    cases s <;> rfl
  refine ⟨heq, fun hj hu => ?_⟩
  have hj' : j = 0 := hj
  have hu0 : u = 0 := by
    subst hj'
    simpa [abs_nonpos_iff] using hu
  rw [heq, hu0, add_zero]
  exact max_eq_right (specClampedDelay_nonneg s bd md attempt hb hm)

/-- Witness for C6 at attempt 4 of an exponential configuration. -/
theorem claim_C6_witness :
    calculateDelay ⟨5, 2, 60, .exponential, 0, 3, 30⟩ 4 0 =
      specClampedDelay .exponential 2 60 4 :=
  (claim_C6 ⟨5, 2, 60, .exponential, 0, 3, 30⟩ 4 0 (by norm_num) (by norm_num)).2 rfl
    (by simp [specClampedDelay])

/-- C7: an exception not matching `retry_on` propagates unmodified from the attempt where it occurs, with circuit state, failure count and last failure time exactly as they were at that attempt; from a CLOSED circuit it propagates on the first attempt leaving the whole state untouched. -/
theorem claim_C7 (cfg : RHConfig) (op : Nat → OpResult α ε) (jit : Nat → ℚ)
    (tEntry tTrip : ℚ) (st : RHState) (e₀ : ε) :
    (∀ (fc attempt rem : Nat) (circuit : CircuitState) (lft : Option ℚ) (e : ε),
      op attempt = .nonRetryableErr e →
      runLoop cfg op jit tTrip lft circuit fc attempt (rem + 1) =
        ⟨.propagated e, ⟨fc, circuit, lft⟩, 1, []⟩) ∧
    (st.circuitState = .closed → op 1 = .nonRetryableErr e₀ → 1 ≤ cfg.maxRetries →
      retry cfg op jit tEntry tTrip st = ⟨.propagated e₀, st, 1, []⟩) := by
  constructor
  · intro fc attempt rem circuit lft e h
    simp [runLoop, h]
  · intro hc h1 hm
    obtain ⟨k, hk⟩ : ∃ k, cfg.maxRetries.toNat = k + 1 := ⟨cfg.maxRetries.toNat - 1, by omega⟩
    obtain ⟨fc, cs, lft⟩ := st
    cases cs with
    | closed => simp [retry, hk, runLoop, h1]
    | opened => exact absurd hc (by simp)
    | halfOpen => exact absurd hc (by simp)

/-- Witness for C7: a non-retryable error on attempt 1 of a fresh handler. -/
theorem claim_C7_witness :
    retry ⟨3, 1, 60, .exponential, 0, 5, 30⟩
        ((fun _ => OpResult.nonRetryableErr 4) : Nat → OpResult Nat Nat)
        (fun _ => 0) 0 0 RHState.init = ⟨.propagated 4, RHState.init, 1, []⟩ :=
  (claim_C7 ⟨3, 1, 60, .exponential, 0, 5, 30⟩ _ _ 0 0 RHState.init 4).2 rfl rfl (by decide)

/-- C8 counterexample: with `max_retries = 3` and threshold 5 the exhausted error's context carries only the last error — its `attempts` entry is `none`, not `some 3`, so the attempt count is not in the context dict (it is in the message). -/
theorem claim_C8_counterexample :
    (retry ⟨3, 1, 10, .exponential, 0, 5, 30⟩
        ((fun _ => OpResult.retryableErr 7) : Nat → OpResult Nat Nat)
        (fun _ => 0) 0 0 RHState.init).outcome
      = .handlerErr (.exhausted 3 ⟨some 7, none⟩) ∧
    (⟨some 7, none⟩ : ErrContext Nat).attempts ≠ some 3 := by
  exact ⟨rfl, by decide⟩

/-- C8 (amended): with `max_retries = 3`, `failure_threshold = 5` and an always-failing retryable operation, `retry` invokes the operation exactly 3 times, then raises the retry-exhausted error whose message carries the attempt count 3 and whose context carries the last error; the circuit remains CLOSED with failure count 3. -/
theorem claim_C8 (e : ε) (jit : Nat → ℚ) (tEntry tTrip : ℚ) :
    retry ⟨3, 1, 10, .exponential, 0, 5, 30⟩
        (fun _ => OpResult.retryableErr (α := α) e) jit tEntry tTrip RHState.init
      = ⟨.handlerErr (.exhausted 3 ⟨some e, none⟩), ⟨3, .closed, none⟩, 3,
         [calculateDelay ⟨3, 1, 10, .exponential, 0, 5, 30⟩ 1 (jit 1),
          calculateDelay ⟨3, 1, 10, .exponential, 0, 5, 30⟩ 2 (jit 2)]⟩ := rfl

/-- C9: after any sequence of calls, fallback registrations and resets from the initial state, `state = OPEN` implies `last_failure_time` is set and `consecutive_failures >= failure_threshold` — for the single `RetryHandler` circuit and for every key of a `FailoverStrategy`. -/
theorem claim_C9 (rcfg : RHConfig) (specs : List (RHCallSpec α ε))
    (fcfg : FSConfig) (events : List (FSEvent α ε)) :
    rhInvariant rcfg (rhRun rcfg RHState.init specs).1 ∧
    fsInvariant fcfg (fsRunEvents fcfg FSState.init events) := by
  constructor
  · exact rhRun_inv rcfg specs RHState.init (fun h => by simp [RHState.init] at h)
  · exact fsRunEvents_inv fcfg events FSState.init
      (fun key hk => by simp [FSState.init] at hk)

/-- C10: constructed with `max_retries` below 1 and a non-OPEN circuit, `retry` returns `None` without invoking the operation even once and without raising; the spec's `max_attempts >= 1` precondition is not enforced. -/
theorem claim_C10 (cfg : RHConfig) (op : Nat → OpResult α ε) (jit : Nat → ℚ)
    (tEntry tTrip : ℚ) (st : RHState)
    (hmr : cfg.maxRetries < 1) (hst : st.circuitState ≠ CircuitState.opened) :
    retry cfg op jit tEntry tTrip st = ⟨.result none, st, 0, []⟩ := by
  obtain ⟨fc, cs, lft⟩ := st
  have h0 : cfg.maxRetries.toNat = 0 := by omega
  cases cs with
  | opened => exact absurd rfl hst
  | closed => simp [retry, h0, runLoop]
  | halfOpen => simp [retry, h0, runLoop]

/-- Witness for C10 with `max_retries = 0`. -/
theorem claim_C10_witness :
    retry ⟨0, 1, 60, .exponential, 0, 5, 30⟩
        (fun _ => OpResult.retryableErr (0 : Nat)) (fun _ => 0) 0 0 RHState.init
      = ⟨.result (none : Option Nat), RHState.init, 0, []⟩ :=
  claim_C10 _ _ _ _ _ _ (by decide) (by decide)

-- single blocked call, RetryHandler
